import Mathlib

/-!
Verification development for the equation-discovery engine of the
Geometric-Quantization repository.  The engine consists of three source
files: `src/equation_generator.py` (random RPN generator),
`src/calculation_engine.py` (CUDA kernel + host-side batch processing)
and `src/main.py` (validity filter and pipeline).

Numeric model: double-precision values are idealised as exact rationals
together with the three IEEE special values `inf`, `-inf` and `nan`
(`PVal` below).  Arithmetic on finite values is exact rational
arithmetic except that a result whose magnitude reaches `2 ^ 1024`
overflows to a signed infinity, as IEEE doubles do; rounding error of
in-range results is not modelled.  All concrete counterexamples and
witnesses below use inputs that are far from the overflow boundary (or
exactly representable powers of two), so their behaviour in the model
agrees with the behaviour of real doubles.
-/

namespace GeomQuant

/-- Idealised Python/CUDA double: an exact rational, or one of the IEEE
special values. -/
inductive PVal where
  | fin (q : ℚ)
  | inf
  | ninf
  | nan
deriving DecidableEq, Repr

/-- Doubles overflow to a signed infinity when the magnitude of a result
reaches `2 ^ 1024` (idealised boundary; the exact IEEE rounding boundary
is marginally below this, which no input used here is close to). -/
def overflowBound : ℚ := 2 ^ 1024

/-- Classify an exact rational result of a double operation: overflow to
a signed infinity, otherwise keep it exactly. -/
def roundF (q : ℚ) : PVal :=
  if overflowBound ≤ q then .inf
  else if q ≤ -overflowBound then .ninf
  else .fin q

def pNeg : PVal → PVal
  | .fin q => .fin (-q)
  | .inf => .ninf
  | .ninf => .inf
  | .nan => .nan

def pAdd : PVal → PVal → PVal
  | .nan, _ => .nan
  | _, .nan => .nan
  | .fin a, .fin b => roundF (a + b)
  | .inf, .ninf => .nan
  | .ninf, .inf => .nan
  | .inf, _ => .inf
  | _, .inf => .inf
  | .ninf, _ => .ninf
  | _, .ninf => .ninf

def pSub (a b : PVal) : PVal := pAdd a (pNeg b)

def pMul : PVal → PVal → PVal
  | .nan, _ => .nan
  | _, .nan => .nan
  | .fin a, .fin b => roundF (a * b)
  | .inf, .inf => .inf
  | .inf, .ninf => .ninf
  | .ninf, .inf => .ninf
  | .ninf, .ninf => .inf
  | .inf, .fin b => if b = 0 then .nan else if 0 < b then .inf else .ninf
  | .fin a, .inf => if a = 0 then .nan else if 0 < a then .inf else .ninf
  | .ninf, .fin b => if b = 0 then .nan else if 0 < b then .ninf else .inf
  | .fin a, .ninf => if a = 0 then .nan else if 0 < a then .ninf else .inf

/-- IEEE division (C semantics; the Python paths of the code only divide
after checking the divisor against zero). -/
def pDiv : PVal → PVal → PVal
  | .nan, _ => .nan
  | _, .nan => .nan
  | .fin a, .fin b =>
    if b = 0 then (if a = 0 then .nan else if 0 < a then .inf else .ninf)
    else roundF (a / b)
  | .inf, .inf => .nan
  | .inf, .ninf => .nan
  | .ninf, .inf => .nan
  | .ninf, .ninf => .nan
  | .inf, .fin b => if b < 0 then .ninf else .inf
  | .ninf, .fin b => if b < 0 then .inf else .ninf
  | .fin _, .inf => .fin 0
  | .fin _, .ninf => .fin 0

def pAbs : PVal → PVal
  | .fin q => .fin |q|
  | .inf => .inf
  | .ninf => .inf
  | .nan => .nan

/-- IEEE `<` as a Bool: comparisons involving `nan` are false, and the
infinities compare in the usual way. -/
def pltB : PVal → PVal → Bool
  | .fin a, .fin b => a < b
  | .fin _, .inf => true
  | .ninf, .fin _ => true
  | .ninf, .inf => true
  | _, _ => false

/-- `true` exactly on finite (non-`nan`, non-infinite) values. -/
def pIsFiniteB : PVal → Bool
  | .fin _ => true
  | _ => false

/-! ## Constant registry

A constant record as loaded by `constants_manager.py` and consumed by the
engine: a symbol, a double value and a 7-component SI dimension vector. -/

/-- One registry constant (`symbol`, `value_float`, `dimensions`). -/
structure Const where
  symbol : String
  value : ℚ
  dims : List ℤ
deriving DecidableEq

/-- Placeholder constant used to model out-of-range registry reads (the
Python/C sources would raise or read garbage there; no theorem below
depends on this value). -/
def defaultConst : Const := ⟨"", 0, List.replicate 7 0⟩

/-- The all-zero (dimensionless) dimension vector.  Dimension vectors
are modelled as length-7 lists of integers (the flat `int` arrays of the
CUDA code); every registry vector and every vector produced by
`perform_dim_op` has length exactly 7, so the C kernel's component-wise
comparison of the 7 entries coincides with list equality. -/
def dimZero : List ℤ := List.replicate 7 0

/-! ## Expression generator (`src/equation_generator.py`)

`_generate_random_rpn` is a random walk; randomness is modelled by
oracle functions supplied as parameters (`coin` decides between pushing
a constant and emitting an operator when both are allowed, `cpick` and
`opick` select which constant/operator to emit).  The 30% bias towards
"simple" constants in the source only changes which element of
`const_ids` is chosen, which the arbitrary `cpick` oracle already
covers. -/

/-- The loop body of `_generate_random_rpn`.  One fuel unit is one loop
iteration; the loop runs exactly `consts_left + ops_left` times because
each iteration decrements exactly one of the two counters.  The state
`(s, cl, ol)` is `(stack_size, consts_left, ops_left)`.  When
`consts_left = 0` the source forces an operator (`choices = ['OP']`);
the source's `stack_size < 2` override branch is unreachable since `OP`
is only offered at `stack_size ≥ 2`. -/
def genLoop (constIds opIds : List Int) (coin : Nat → Bool) (cpick opick : Nat → Nat) :
    Nat → Nat → Nat → Nat → List Int
  | 0, _, _, _ => []
  | fuel + 1, s, cl, ol =>
    if cl = 0 ∧ ol = 0 then []
    else
      let pickConst :=
        if 0 < cl then
          (if 0 < ol ∧ 2 ≤ s then coin fuel else true)
        else false
      if pickConst then
        constIds.getD (cpick fuel % constIds.length) 0 ::
          genLoop constIds opIds coin cpick opick fuel (s + 1) (cl - 1) ol
      else
        opIds.getD (opick fuel % opIds.length) 0 ::
          genLoop constIds opIds coin cpick opick fuel (s - 1) cl (ol - 1)

/-- `EquationGenerator._generate_random_rpn`. -/
def generateRandomRPN (constIds opIds : List Int) (coin : Nat → Bool)
    (cpick opick : Nat → Nat) (numConstants : Nat) : List Int :=
  if numConstants = 1 then [constIds.getD (cpick 0 % constIds.length) 0]
  else
    genLoop constIds opIds coin cpick opick (numConstants + (numConstants - 1))
      0 numConstants (numConstants - 1)

/-- `EquationGenerator.generate_random_batch`: each expression draws its
own constant count `randint(min_consts, max_consts)` (modelled by
`npick k % (max - min + 1)`) and its own fresh random stream (the
oracles are indexed by the position `k` in the batch). -/
def generateRandomBatch (constIds opIds : List Int) (coin : Nat → Nat → Bool)
    (cpick opick : Nat → Nat → Nat) (npick : Nat → Nat)
    (batchSize minConsts maxConsts : Nat) : List (List Int) :=
  (List.range batchSize).map fun k =>
    generateRandomRPN constIds opIds (coin k) (cpick k) (opick k)
      (minConsts + npick k % (maxConsts - minConsts + 1))

/-- Left-to-right stack scan of an RPN token list starting from depth
`d`: a constant token (positive) pushes one operand, an operator token
consumes two operands and pushes one, and is only legal at depth ≥ 2.
`some 1` from depth 0 is exactly the stack-validity invariant of claim
C1. -/
def scanDepth : List Int → Nat → Option Nat
  | [], d => some d
  | t :: ts, d =>
    if 0 < t then scanDepth ts (d + 1)
    else if 2 ≤ d then scanDepth ts (d - 1)
    else none

/-! ## GPU evaluation kernel (`src/calculation_engine.py`, CUDA source)

One kernel lane evaluates one RPN row.  The C code keeps a value stack
and a flat dimension stack whose pointers move in lockstep (every branch
pops/pushes both or neither), so the model uses a single stack of
`(value, dimension-vector)` pairs with the head as the top of stack.
The fixed C stack capacity (16) and the undefined behaviour on
out-of-range constant indices or unknown operator codes are noted where
they are idealised; no theorem below exercises them.  `pow` on doubles
is kept abstract as a parameter `kpow` (every theorem holds for all
`kpow`). -/

/-- C's `round` (ties away from zero), used for the `^` dimension rule. -/
def roundC (q : ℚ) : ℤ :=
  if 0 ≤ q then ⌊q + 1 / 2⌋ else ⌈q - 1 / 2⌉

/-- Dimension component scaling for `^`: `(int)(round(a[i] * b_val))`.
For a non-finite exponent value the C expression is unspecified; that
case is modelled as 0 and never exercised by a theorem. -/
def dimPow (d : ℤ) (bval : PVal) : ℤ :=
  match bval with
  | .fin q => roundC ((d : ℚ) * q)
  | _ => 0

/-- `perform_dim_op`: the dimension rule of one operator.  `none` means
the C function returned `false` (the lane skips the operation).  For an
operator code outside `-1 … -5` the C code leaves `res_dim`
uninitialised and returns `true`; that unreachable case is modelled as
the zero vector. -/
def performDimOp (op : Int) (a b : List ℤ) (bval : PVal) : Option (List ℤ) :=
  if op = -1 ∨ op = -2 then
    if a = b then some a else none
  else if op = -5 then
    if b = dimZero then some (a.map (fun d => dimPow d bval)) else none
  else if op = -3 then some (List.zipWith (· + ·) a b)
  else if op = -4 then some (List.zipWith (· - ·) a b)
  else some dimZero

/-- The numeric result of one kernel operator (`result_val`); the C
variable is initialised to `0.0`, so an unknown operator code yields 0.
Division is only reached with a non-zero divisor (the zero case is a
skip handled in `kernelStep`). -/
def kernelOpVal (kpow : PVal → PVal → PVal) (op : Int) (a b : PVal) : PVal :=
  if op = -1 then pAdd a b
  else if op = -2 then pSub a b
  else if op = -3 then pMul a b
  else if op = -4 then pDiv a b
  else if op = -5 then kpow a b
  else .fin 0

/-- One token of the kernel loop.  The state is the pair stack together
with a flag recording whether some operator application was invalid
(dimension-rule failure or division by zero; an underflow skip
`value_sp < 2` does not set the flag).  A failing operator application
pops its two operands and pushes nothing. -/
def kernelStep (consts : List Const) (kpow : PVal → PVal → PVal) :
    List (PVal × List ℤ) × Bool → Int → List (PVal × List ℤ) × Bool
  | (stack, invalid), token =>
    if 0 < token then
      let c := consts.getD (token - 1).toNat defaultConst
      ((.fin c.value, c.dims) :: stack, invalid)
    else
      match stack with
      | (bv, bd) :: (av, ad) :: rest =>
        match performDimOp token ad bd bv with
        | none => (rest, true)
        | some rd =>
          if token = -4 ∧ bv = .fin 0 then (rest, true)
          else ((kernelOpVal kpow token av bv, rd) :: rest, invalid)
      | _ => (stack, invalid)

/-- Full kernel evaluation of one row: tokens are consumed left to right
up to the first padding `0` (`if (token == 0) break`). -/
def kernelRowEval (consts : List Const) (kpow : PVal → PVal → PVal)
    (eq : List Int) : List (PVal × List ℤ) × Bool :=
  (eq.takeWhile (· ≠ 0)).foldl (kernelStep consts kpow) ([], false)

/-- Relative deviation `|value − target| / |target|` in double
arithmetic. -/
def relDev (v : PVal) (t : ℚ) : PVal :=
  pDiv (pAbs (pSub v (.fin t))) (pAbs (.fin t))

/-- The kernel's target scan: report the first target (in registry
order, starting at index `i`) whose dimension vector equals the row's
final dimension vector, whose value is non-zero, and whose relative
deviation is below the tolerance. -/
def scanTargets (tol : ℚ) (v : PVal) (d : List ℤ) : List Const → Nat → Option Nat
  | [], _ => none
  | c :: cs, i =>
    if c.dims = d ∧ c.value ≠ 0 ∧ pltB (relDev v c.value) (.fin tol) = true then some i
    else scanTargets tol v d cs (i + 1)

/-- One kernel lane end to end: a row is scored only when its final
value stack holds exactly one entry; in the engine the target arrays are
the constant arrays themselves (`target_vals_gpu = const_vals_gpu`). -/
def kernelRowMatch (consts : List Const) (tol : ℚ) (kpow : PVal → PVal → PVal)
    (eq : List Int) : Option Nat :=
  match (kernelRowEval consts kpow eq).1 with
  | [(v, d)] => scanTargets tol v d consts 0
  | _ => none

/-! ## Host-side numeric evaluation and the validity filter (`src/main.py`)

Python `**` is kept abstract as a parameter `pf`; `pf a b = none` models
an exception or a complex result, which makes the whole evaluation
return NaN (`evaluate_rpn_numeric` converts complex power results to
NaN and its try/except converts exceptions to NaN).  A missing
`constants_map` key under a constant token also yields NaN through the
enclosing try/except; note that Python's
`override_values.get(token, constants_map[token]['value_float'])`
evaluates the default argument eagerly, so the lookup happens even for
overridden tokens.  `_evaluate_rpn_cpu` of `calculation_engine.py` has
the same semantics with an empty override (its try/except likewise
yields NaN on IndexError/OverflowError/ValueError, and a final stack
length other than 1 yields NaN), so it is modelled by the same function.
-/

/-- `evaluate_rpn_numeric` (and `_evaluate_rpn_cpu` with `override`
constantly `none`). -/
def evalRpnNumeric (consts : List Const) (pf : PVal → PVal → Option PVal)
    (override : Int → Option PVal) : List Int → List PVal → PVal
  | [], stack =>
    match stack with
    | [v] => v
    | _ => .nan
  | t :: ts, stack =>
    if 0 < t then
      match consts[(t - 1).toNat]? with
      | none => .nan
      | some c =>
        match override t with
        | some ov => evalRpnNumeric consts pf override ts (ov :: stack)
        | none => evalRpnNumeric consts pf override ts (.fin c.value :: stack)
    else
      match stack with
      | b :: a :: rest =>
        if t = -1 then evalRpnNumeric consts pf override ts (pAdd a b :: rest)
        else if t = -2 then evalRpnNumeric consts pf override ts (pSub a b :: rest)
        else if t = -3 then evalRpnNumeric consts pf override ts (pMul a b :: rest)
        else if t = -4 then
          if b = .fin 0 then .nan
          else evalRpnNumeric consts pf override ts (pDiv a b :: rest)
        else if t = -5 then
          match pf a b with
          | none => .nan
          | some r => evalRpnNumeric consts pf override ts (r :: rest)
        else evalRpnNumeric consts pf override ts rest
      | _ => .nan

/-- The quick target filter of `is_valid_discovery` (main.py line 94). -/
def targetBlacklist : List String :=
  ["one", "two", "three", "half", "pi", "phi", "e_math", "alpha", "sqrt_2", "sqrt_3"]

/-- The constants exempted from the sensitivity perturbation
(main.py line 109).  Note that `alpha` is NOT in this list. -/
def sensitivityExempt : List String :=
  ["one", "two", "half", "three", "pi", "e_math", "phi", "sqrt_2", "sqrt_3"]

/-- The sensitivity (ghost-variable) loop of `is_valid_discovery`,
iterating over the distinct constant token ids of the expression.  The
exempt symbol list is a parameter so that the source's list
(`sensitivityExempt`) can be compared with the spec's claimed list
(which additionally contains `alpha`).  `false` means the candidate is
rejected: the perturbed evaluation was NaN, or perturbing the constant
moved the result by less than `1e-7 · |base|`.  (An out-of-range token
id would raise an uncaught KeyError in the source; that unreachable case
is modelled by `defaultConst`.) -/
def symbolExempt (exempt : List String) (consts : List Const) (cid : Int) : Prop :=
  (consts.getD (cid - 1).toNat defaultConst).symbol ∈ exempt

instance (exempt : List String) (consts : List Const) (cid : Int) :
    Decidable (symbolExempt exempt consts cid) :=
  inferInstanceAs (Decidable ((consts.getD (cid - 1).toNat defaultConst).symbol ∈ exempt))

def sensitivityLoop (exempt : List String) (consts : List Const)
    (pf : PVal → PVal → Option PVal) (rpn : List Int) (base : PVal) : List Int → Bool
  | [] => true
  | cid :: rest =>
    if symbolExempt exempt consts cid then
      sensitivityLoop exempt consts pf rpn base rest
    else
      if evalRpnNumeric consts pf
          (fun t => if t = cid then
            some (pMul (.fin (consts.getD (cid - 1).toNat defaultConst).value)
              (.fin (21 / 20))) else none) rpn [] = .nan then false
      else if pltB
          (pAbs (pSub (evalRpnNumeric consts pf
            (fun t => if t = cid then
              some (pMul (.fin (consts.getD (cid - 1).toNat defaultConst).value)
                (.fin (21 / 20))) else none) rpn []) base))
          (pMul (.fin (1 / 10000000)) (pAbs base)) then false
      else sensitivityLoop exempt consts pf rpn base rest

/-- The symbol-collection part of `rpn_to_sympy_expression`: simulate
the stack depth and accumulate the set of constant symbols; `none`
models the `(None, None)` return (operator underflow, unknown token, a
missing `constants_map` key, or an empty final stack — all caught by the
function's try/except). -/
def rpnUsedSymbols (consts : List Const) : List Int → Nat → Finset String → Option (Finset String)
  | [], d, syms => if 1 ≤ d then some syms else none
  | t :: ts, d, syms =>
    if 0 < t then
      match consts[(t - 1).toNat]? with
      | some c => rpnUsedSymbols consts ts (d + 1) (insert c.symbol syms)
      | none => none
    else if t = -1 ∨ t = -2 ∨ t = -3 ∨ t = -4 ∨ t = -5 then
      if 2 ≤ d then rpnUsedSymbols consts ts (d - 1) syms else none
    else none

/-- The definitional-cluster blacklist of `is_valid_discovery`
(main.py lines 129–136). -/
def definitionGroups : List (Finset String) :=
  [ {"c", "mu_0", "epsilon_0", "Z_0"},
    {"h", "hbar", "e_charge", "G_0", "R_K", "K_J", "phi_0", "two", "half", "pi"},
    {"k_B", "R", "F", "e_charge", "N_A"},
    {"m_P", "l_P", "t_P", "G", "c", "hbar"},
    {"m_e", "r_e", "alpha", "h", "c", "e_charge", "R_inf", "a_0", "lambda_C", "pi",
      "two", "half"},
    {"mu_B", "e_charge", "h", "m_e", "two", "pi"} ]

/-- Stages 1–3 of `is_valid_discovery` plus the cluster-signature
computation: `some sig` exactly when the candidate passes the target
blacklist, the base-value finiteness check, the sensitivity loop, the
symbolic build, the definitional-cluster check and the SymPy ratio test,
where `sig` is the signature `frozenset(used_symbols | {target})` that
stage 4 then deduplicates on.  The outcome of the external
`simplify(expr/target).is_constant()` call is the parameter `rc`
(`none` = the call raised, `some true` = ratio is constant; both reject).
The exempt list parameterises the sensitivity stage as in
`sensitivityLoop`. -/
def discoverySignatureGen (exempt : List String) (consts : List Const)
    (pf : PVal → PVal → Option PVal) (rc : Option Bool)
    (rpn : List Int) (target : String) : Option (Finset String) :=
  if target ∈ targetBlacklist then none
  else if evalRpnNumeric consts pf (fun _ => none) rpn [] = .nan ∨
      evalRpnNumeric consts pf (fun _ => none) rpn [] = .inf ∨
      evalRpnNumeric consts pf (fun _ => none) rpn [] = .ninf then none
  else if sensitivityLoop exempt consts pf rpn
      (evalRpnNumeric consts pf (fun _ => none) rpn [])
      ((rpn.filter (fun t => 0 < t)).dedup) = false then none
  else
    match rpnUsedSymbols consts rpn 0 ∅ with
    | none => none
    | some syms =>
      if definitionGroups.any (fun g =>
          decide (2 < (insert target syms).card ∧ insert target syms ⊆ g)) then none
      else
        match rc with
        | none => none
        | some true => none
        | some false => some (insert target syms)

/-- `is_valid_discovery` with the exempt list as a parameter: the
Boolean result together with the `seen_clusters` state after the call
(the source mutates the shared dict on the success path only). -/
def isValidDiscoveryGen (exempt : List String) (consts : List Const)
    (pf : PVal → PVal → Option PVal) (rc : Option Bool) (rpn : List Int)
    (target : String) (seen : Finset (Finset String)) :
    Bool × Finset (Finset String) :=
  match discoverySignatureGen exempt consts pf rc rpn target with
  | none => (false, seen)
  | some sig => if sig ∈ seen then (false, seen) else (true, insert sig seen)

/-- `is_valid_discovery` as written in the source (exempt list of
main.py line 109, without `alpha`). -/
def isValidDiscovery (consts : List Const) (pf : PVal → PVal → Option PVal)
    (rc : Option Bool) (rpn : List Int) (target : String)
    (seen : Finset (Finset String)) : Bool × Finset (Finset String) :=
  isValidDiscoveryGen sensitivityExempt consts pf rc rpn target seen

/-- Modelled from the spec for comparison (claim C4): the same filter
with the spec's claimed exempt set, which additionally contains
`alpha`. -/
def isValidDiscoveryAlphaExempt (consts : List Const)
    (pf : PVal → PVal → Option PVal) (rc : Option Bool) (rpn : List Int)
    (target : String) (seen : Finset (Finset String)) :
    Bool × Finset (Finset String) :=
  isValidDiscoveryGen (sensitivityExempt ++ ["alpha"]) consts pf rc rpn target seen

/-! ## Rendering and re-parsing of matches

`process_batch` renders an accepted expression to a space-joined string
of constant symbols and operator glyphs
(`op_map = {'-1':'+', '-2':'-', '-3':'*', '-4':'/', '-5':'^'}`, default
`"?"`); `consumer_task` splits that string on single spaces and maps
each word back to a token id, operators first
(`op_map = {'+':-1, …}`), then symbols via
`c_lookup = {symbol: i+1}` (a Python dict comprehension, so a duplicated
symbol would resolve to its last index).  Strings are handled at the
`List Char` level: `joinWords` is exactly Python's `' '.join` and
`splitSp` exactly `str.split(' ')` (empty parts preserved). -/

/-- Python `' '.join` on a list of words. -/
def joinWords : List (List Char) → List Char
  | [] => []
  | [w] => w
  | w :: ws => w ++ ' ' :: joinWords ws

/-- Python `str.split(' ')`: split on every single space, keeping empty
parts; `''.split(' ') = ['']`. -/
def splitSp : List Char → List (List Char)
  | [] => [[]]
  | c :: rest =>
    if c = ' ' then [] :: splitSp rest
    else
      match splitSp rest with
      | w :: ws => (c :: w) :: ws
      | [] => [[c]]

/-- The renderer's operator glyphs (`op_map.get(str(t), "?")`). -/
def opGlyph (t : Int) : String :=
  if t = -1 then "+"
  else if t = -2 then "-"
  else if t = -3 then "*"
  else if t = -4 then "/"
  else if t = -5 then "^"
  else "?"

/-- The word emitted for one token by `process_batch`
(`self.constants[t-1]['symbol'] if t > 0 else op_map.get(str(t), "?")`;
an out-of-range positive token would raise IndexError and is modelled by
`defaultConst`). -/
def tokenWord (consts : List Const) (t : Int) : String :=
  if 0 < t then (consts.getD (t - 1).toNat defaultConst).symbol else opGlyph t

/-- The rendered equation string of a match (`' '.join(rpn_str)`). -/
def renderRpn (consts : List Const) (rpn : List Int) : List Char :=
  joinWords ((rpn.map (tokenWord consts)).map String.data)

/-- The consumer's symbol lookup `c_lookup = {c['symbol']: i+1 for i, c
in enumerate(constants)}`: a dict comprehension resolves a repeated
symbol to its LAST index, modelled by searching the index range in
reverse. -/
def symLookup (consts : List Const) (w : String) : Option Int :=
  ((List.range consts.length).reverse.find?
    (fun i => (consts.getD i defaultConst).symbol = w)).map (fun i => (i : Int) + 1)

/-- One word of the consumer's re-parser: operators first, then the
symbol table, else failure (`ok = False`). -/
def parseWord (consts : List Const) (w : String) : Option Int :=
  if w = "+" then some (-1)
  else if w = "-" then some (-2)
  else if w = "*" then some (-3)
  else if w = "/" then some (-4)
  else if w = "^" then some (-5)
  else symLookup consts w

/-- The consumer's re-parse of a rendered match line
(`match['equation_rpn'].split(' ')` mapped through the lookups); `none`
models `ok = False` (the match line is skipped). -/
def parseRpn (consts : List Const) (chars : List Char) : Option (List Int) :=
  (splitSp chars).mapM (fun w => parseWord consts (String.mk w))


/-! ## Discovery log files (`consumer_task`, main.py lines 255–266)

For each accepted match the consumer computes
`f_idx = total_records_written // 500 + 1`, opens `<base>_<f_idx>.log`
in append mode if that file exists and in write mode otherwise, writes
the header line exactly when the file was opened in write mode, then
writes the match line and increments the shared counter.  `main()`
removes all previous log files at startup, so "the file exists"
coincides with "this run has already written to that segment".  The
file system is modelled as an association list from segment index to the
list of chunks written to that file, in order.  (The two consumer
processes share the counter and the file system; the claim is about the
sequence of records of a run, modelled here as a sequential fold.) -/

/-- The header chunk (`"# Equation Explorer v3.2 (1% Tolerance)\n\n"`,
written only under `mode == 'w'`). -/
def logHeader : String := "# Equation Explorer v3.2 (1% Tolerance)"

/-- The log files of a run (segment index ↦ lines) and the shared
`total_records_written` counter. -/
structure LogState where
  files : List (Nat × List String)
  total : Nat
deriving DecidableEq

def lookupFile : List (Nat × List String) → Nat → Option (List String)
  | [], _ => none
  | (j, c) :: rest, i => if j = i then some c else lookupFile rest i

def setFile : List (Nat × List String) → Nat → List String → List (Nat × List String)
  | [], i, c => [(i, c)]
  | (j, c0) :: rest, i, c =>
    if j = i then (j, c) :: rest else (j, c0) :: setFile rest i c

/-- One iteration of the log-writing loop of `consumer_task`. -/
def writeRecord (st : LogState) (line : String) : LogState :=
  let fIdx := st.total / 500 + 1
  match lookupFile st.files fIdx with
  | some content => ⟨setFile st.files fIdx (content ++ [line]), st.total + 1⟩
  | none => ⟨setFile st.files fIdx [logHeader, line], st.total + 1⟩

/-- A whole run's record stream written from a given state. -/
def writeRecords (lines : List String) (st : LogState) : LogState :=
  lines.foldl writeRecord st

/-- The state at startup: `main()` has deleted all old log files and the
shared counter is 0. -/
def emptyLogState : LogState := ⟨[], 0⟩

/-! ## Host-side batch post-processing (`GpuCalculationEngine.process_batch`)

The GPU kernel hands back raw `(equation_index, target_index)` pairs;
the host loop re-derives everything else per pair: it skips pairs whose
equation index is out of range, strips the `0` padding, recomputes the
value with `_evaluate_rpn_cpu` (same `PVal` semantics as
`evalRpnNumeric` with an empty override), discards NaN/±inf values
(`np.isnan` / `np.isinf`), recomputes the relative deviation against the
target constant, applies the `_is_interesting` filter and renders the
accepted match.  The whole call aborts with an uncaught exception —
modelled as `none` — when a target index is out of range (IndexError on
`self.constants[target_idx]`) or the target value is zero
(ZeroDivisionError in the deviation). -/

/-- A match dict as built by `process_batch`. -/
structure PBMatch where
  equation_rpn : List Char
  target : String
  deviation : PVal
  rpn_length : Nat
deriving DecidableEq

/-- `rpn_int = [t for t in rpn_int_padded if t != 0]`. -/
def strippedRpn (equations : List (List Int)) (eqIdx : Nat) : List Int :=
  (equations.getD eqIdx []).filter (fun t => t ≠ 0)

/-- `used_constant_indices = {token - 1 for token in rpn_int if token > 0}`. -/
def usedConstIdx (rpnInt : List Int) : Finset Int :=
  ((rpnInt.filter (fun t => 0 < t)).map (fun t => t - 1)).toFinset

/-- The host recomputation `self._evaluate_rpn_cpu(rpn_int)`. -/
def hostValue (consts : List Const) (pf : PVal → PVal → Option PVal)
    (equations : List (List Int)) (eqIdx : Nat) : PVal :=
  evalRpnNumeric consts pf (fun _ => none) (strippedRpn equations eqIdx) []

/-- `abs(calculated_value - target_value) / abs(target_value)`. -/
def hostDeviation (v : PVal) (tval : ℚ) : PVal :=
  pDiv (pAbs (pSub v (.fin tval))) (pAbs (.fin tval))

/-- `_is_interesting`: no tautology (target among the inputs), no
exact identity (deviation below `1e-15`), and at least two distinct
input constants. -/
def isInteresting (rpnInt : List Int) (targetIdx : Nat) (deviation : PVal) : Bool :=
  if (targetIdx : Int) ∈ usedConstIdx rpnInt then false
  else if pltB deviation (.fin (1 / 10 ^ 15)) then false
  else if (usedConstIdx rpnInt).card < 2 then false
  else true

/-- The result loop of `process_batch` over the raw GPU pairs. -/
def processRaw (consts : List Const) (pf : PVal → PVal → Option PVal)
    (equations : List (List Int)) : List (Nat × Nat) → Option (List PBMatch)
  | [] => some []
  | (eqIdx, tIdx) :: rest =>
    if equations.length ≤ eqIdx then processRaw consts pf equations rest
    else if hostValue consts pf equations eqIdx = .nan ∨
        hostValue consts pf equations eqIdx = .inf ∨
        hostValue consts pf equations eqIdx = .ninf then
      processRaw consts pf equations rest
    else
      match consts[tIdx]? with
      | none => none
      | some tc =>
        if tc.value = 0 then none
        else if isInteresting (strippedRpn equations eqIdx) tIdx
            (hostDeviation (hostValue consts pf equations eqIdx) tc.value) then
          (processRaw consts pf equations rest).map
            (fun ms => ⟨renderRpn consts (strippedRpn equations eqIdx), tc.symbol,
              hostDeviation (hostValue consts pf equations eqIdx) tc.value,
              (strippedRpn equations eqIdx).length⟩ :: ms)
        else processRaw consts pf equations rest

/-! ## Theorems -/

/-- A `getD` at an index reduced modulo the length of a nonempty list is
a member of the list. -/
theorem getD_mod_mem (l : List Int) (h : l ≠ []) (i : Nat) :
    l.getD (i % l.length) 0 ∈ l := by
  have hlen : 0 < l.length := List.length_pos.mpr h
  have hlt : i % l.length < l.length := Nat.mod_lt _ hlen
  rw [List.getD_eq_getElem _ _ hlt]
  exact List.getElem_mem _

/-- Scan step for a constant token. -/
theorem scanDepth_cons_pos {t : Int} (ht : 0 < t) (ts : List Int) (d : Nat) :
    scanDepth (t :: ts) d = scanDepth ts (d + 1) := by
  simp [scanDepth, ht]

/-- Scan step for an operator token applied at depth ≥ 2. -/
theorem scanDepth_cons_neg {t : Int} (ht : t < 0) (ts : List Int) {d : Nat} (hd : 2 ≤ d) :
    scanDepth (t :: ts) d = scanDepth ts (d - 1) := by
  have : ¬ 0 < t := by omega
  simp [scanDepth, this, hd]

/-- Invariant proof for the generator loop: with `fuel = cl + ol` and
`s + cl = ol + 1` (which hold at entry and are preserved), the emitted
suffix scans from depth `s` to final depth exactly 1. -/
theorem genLoop_scanDepth (constIds opIds : List Int) (coin : Nat → Bool)
    (cpick opick : Nat → Nat)
    (hc : ∀ c ∈ constIds, 0 < c) (ho : ∀ o ∈ opIds, o < 0)
    (hcne : constIds ≠ []) (hone : opIds ≠ []) :
    ∀ fuel s cl ol, fuel = cl + ol → s + cl = ol + 1 →
      scanDepth (genLoop constIds opIds coin cpick opick fuel s cl ol) s = some 1 := by
  intro fuel
  induction fuel with
  | zero =>
    intro s cl ol hfuel hinv
    have hcl : cl = 0 := by omega
    have hol : ol = 0 := by omega
    have hs : s = 1 := by omega
    subst hcl hol hs
    simp [genLoop, scanDepth]
  | succ n ih =>
    intro s cl ol hfuel hinv
    have hcpos : 0 < constIds.getD (cpick n % constIds.length) 0 :=
      hc _ (getD_mod_mem constIds hcne _)
    have honeg : opIds.getD (opick n % opIds.length) 0 < 0 :=
      ho _ (getD_mod_mem opIds hone _)
    by_cases hdone : cl = 0 ∧ ol = 0
    · have hs : s = 1 := by omega
      subst hs
      simp [genLoop, hdone, scanDepth]
    · simp only [genLoop]
      rw [if_neg hdone]
      by_cases hcl : 0 < cl
      · by_cases hos : 0 < ol ∧ 2 ≤ s
        · rw [if_pos hcl, if_pos hos]
          cases hcoin : coin n
          · -- coin chose the operator step
            rw [if_neg (by simp)]
            rw [scanDepth_cons_neg honeg _ hos.2]
            exact ih (s - 1) cl (ol - 1) (by omega) (by omega)
          · -- coin chose the constant step
            rw [if_pos rfl]
            rw [scanDepth_cons_pos hcpos]
            exact ih (s + 1) (cl - 1) ol (by omega) (by omega)
        · -- stack too small (or no operators left): constant forced
          rw [if_pos hcl, if_neg hos]
          simp only [if_true]
          rw [scanDepth_cons_pos hcpos]
          exact ih (s + 1) (cl - 1) ol (by omega) (by omega)
      · -- no constants left: the source forces an operator
        have hs2 : 2 ≤ s := by omega
        rw [if_neg hcl]
        simp only [Bool.false_eq_true, if_false]
        rw [scanDepth_cons_neg honeg _ hs2]
        exact ih (s - 1) cl (ol - 1) (by omega) (by omega)

/-- C1: every token sequence produced by `_generate_random_rpn` with
`num_constants ≥ 1` is stack-valid RPN — scanning left to right, each
constant token (positive) adds one to the depth, each operator token
(negative) is applied at depth ≥ 2 and nets −1, the depth never goes
negative, and the final depth is exactly 1 (`scanDepth _ 0 = some 1`);
and hence every expression of every batch returned by
`generate_random_batch` with `min_consts ≥ 1` is stack-valid. -/
theorem generate_random_rpn_stack_valid (constIds opIds : List Int)
    (hc : ∀ c ∈ constIds, 0 < c) (ho : ∀ o ∈ opIds, o < 0)
    (hcne : constIds ≠ []) (hone : opIds ≠ []) :
    (∀ (coin : Nat → Bool) (cpick opick : Nat → Nat) (n : Nat), 1 ≤ n →
      scanDepth (generateRandomRPN constIds opIds coin cpick opick n) 0 = some 1) ∧
    (∀ (coin : Nat → Nat → Bool) (cpick opick : Nat → Nat → Nat) (npick : Nat → Nat)
      (batchSize minConsts maxConsts : Nat), 1 ≤ minConsts →
      ∀ e ∈ generateRandomBatch constIds opIds coin cpick opick npick
          batchSize minConsts maxConsts, scanDepth e 0 = some 1) := by
  have hsingle : ∀ (coin : Nat → Bool) (cpick opick : Nat → Nat) (n : Nat), 1 ≤ n →
      scanDepth (generateRandomRPN constIds opIds coin cpick opick n) 0 = some 1 := by
    intro coin cpick opick n hn
    rw [generateRandomRPN]
    by_cases h1 : n = 1
    · have hpos : 0 < constIds.getD (cpick 0 % constIds.length) 0 :=
        hc _ (getD_mod_mem constIds hcne _)
      rw [if_pos h1, scanDepth_cons_pos hpos]
      simp [scanDepth]
    · rw [if_neg h1]
      exact genLoop_scanDepth constIds opIds coin cpick opick hc ho hcne hone
        (n + (n - 1)) 0 n (n - 1) (by omega) (by omega)
  refine ⟨hsingle, ?_⟩
  intro coin cpick opick npick batchSize minConsts maxConsts hmin e he
  simp only [generateRandomBatch, List.mem_map] at he
  obtain ⟨k, _, rfl⟩ := he
  exact hsingle (coin k) (cpick k) (opick k) _ (by omega)

/-- Witness for C1 at a concrete registry: two constant ids, one
operator id, a concrete coin/pick stream, two constants requested. -/
theorem generate_random_rpn_stack_valid_witness :
    scanDepth (generateRandomRPN [1, 2] [-1] (fun _ => true) (fun _ => 0) (fun _ => 0) 2)
      0 = some 1 :=
  (generate_random_rpn_stack_valid [1, 2] [-1] (by decide) (by decide)
    (by decide) (by decide)).1 (fun _ => true) (fun _ => 0) (fun _ => 0) 2 (by decide)

/-- If the kernel's target scan starting at index `i` reports index `j`,
then the registry holds at position `j` a target with exactly the
scanned dimension vector, a non-zero value, and a relative deviation
below the tolerance. -/
theorem scanTargets_some (tol : ℚ) (v : PVal) (d : List ℤ) :
    ∀ (cs : List Const) (i j : Nat), scanTargets tol v d cs i = some j →
      i ≤ j ∧ ∃ c, cs[j - i]? = some c ∧ c.dims = d ∧ c.value ≠ 0 ∧
        pltB (relDev v c.value) (.fin tol) = true := by
  intro cs
  induction cs with
  | nil => intro i j h; simp [scanTargets] at h
  | cons c cs ih =>
    intro i j h
    rw [scanTargets] at h
    by_cases hc : c.dims = d ∧ c.value ≠ 0 ∧ pltB (relDev v c.value) (.fin tol) = true
    · rw [if_pos hc] at h
      have hij : i = j := by injection h
      subst hij
      exact ⟨le_refl i, c, by simp, hc⟩
    · rw [if_neg hc] at h
      obtain ⟨hij, c', hc', hprops⟩ := ih (i + 1) j h
      refine ⟨by omega, c', ?_, hprops⟩
      have hidx : j - i = (j - (i + 1)) + 1 := by omega
      rw [hidx]
      simpa using hc'

/-- C2: whenever the kernel reports a `(row, target)` pair, the row's
final 7-component dimension vector is component-wise exactly the
target's dimension vector, the target value is non-zero, and the
relative deviation `|value − target| / |target|` is below the tolerance
(IEEE `<`, hence also false for `nan`/`inf` values).  In particular a
row whose final dimension vector is non-zero can only be reported
against a target with that same non-zero dimension vector, never a
dimensionless one. -/
theorem kernel_match_exact_dims_and_tolerance (consts : List Const) (tol : ℚ)
    (kpow : PVal → PVal → PVal) (eq : List Int) (i : Nat)
    (h : kernelRowMatch consts tol kpow eq = some i) :
    ∃ v d c, (kernelRowEval consts kpow eq).1 = [(v, d)] ∧
      consts[i]? = some c ∧ c.dims = d ∧ c.value ≠ 0 ∧
      pltB (relDev v c.value) (.fin tol) = true ∧
      (d ≠ dimZero → c.dims ≠ dimZero) := by
  rw [kernelRowMatch] at h
  cases hst : (kernelRowEval consts kpow eq).1 with
  | nil => rw [hst] at h; exact absurd h (by simp)
  | cons hd tl =>
    cases tl with
    | cons hd2 tl2 => rw [hst] at h; exact absurd h (by simp)
    | nil =>
      obtain ⟨v, d⟩ := hd
      rw [hst] at h
      obtain ⟨-, c, hc, hdims, hval, htol⟩ := scanTargets_some tol v d consts 0 i h
      refine ⟨v, d, c, rfl, by simpa using hc, hdims, hval, htol, ?_⟩
      intro hne
      rw [hdims]
      exact hne

/-- Witness for C2: a single dimensionless registry constant of value 5
matches itself (target index 0) with zero deviation. -/
theorem kernel_match_exact_dims_and_tolerance_witness :
    ∃ v d c,
      (kernelRowEval [⟨"c", 5, dimZero⟩] (fun _ _ => PVal.nan) [1]).1 = [(v, d)] ∧
      [(⟨"c", 5, dimZero⟩ : Const)][(0 : Nat)]? = some c ∧ c.dims = d ∧ c.value ≠ 0 ∧
      pltB (relDev v c.value) (.fin (1 / 100)) = true ∧
      (d ≠ dimZero → c.dims ≠ dimZero) :=
  kernel_match_exact_dims_and_tolerance [⟨"c", 5, dimZero⟩] (1 / 100)
    (fun _ _ => PVal.nan) [1] 0 (by
      norm_num [kernelRowMatch, kernelRowEval, kernelStep, scanTargets, relDev,
        pAbs, pSub, pNeg, pAdd, pDiv, roundF, overflowBound, pltB, defaultConst])

/-- C3 counterexample: the stack-valid expression `[A, B, +, C, *]`
(`A` has dimension length, `B` time, `C` is dimensionless with value 5)
contains an invalid operator application — the `+` is applied to
mismatched dimension vectors and is skipped, popping both operands.  The
subsequent `*` then finds fewer than two stacked values and is also
skipped (without popping), so the row ends at stack depth 1 holding `C`
and IS scored: the kernel reports it against target index 2 (value 5,
dimensionless).  This refutes the claim that such a row never reports a
match. -/
theorem kernel_invalid_op_row_still_scored :
    scanDepth [1, 2, -1, 3, -3] 0 = some 1 ∧
    (kernelRowEval
      [⟨"A", 1, [1, 0, 0, 0, 0, 0, 0]⟩, ⟨"B", 1, [0, 1, 0, 0, 0, 0, 0]⟩, ⟨"C", 5, dimZero⟩]
      (fun _ _ => PVal.nan) [1, 2, -1, 3, -3]).2 = true ∧
    kernelRowMatch
      [⟨"A", 1, [1, 0, 0, 0, 0, 0, 0]⟩, ⟨"B", 1, [0, 1, 0, 0, 0, 0, 0]⟩, ⟨"C", 5, dimZero⟩]
      (1 / 100) (fun _ _ => PVal.nan) [1, 2, -1, 3, -3] = some 2 := by
  refine ⟨by decide, ?_, ?_⟩ <;>
    · simp [kernelRowMatch, kernelRowEval, kernelStep, scanTargets, relDev,
        performDimOp, kernelOpVal, dimZero,
        pAbs, pSub, pNeg, pAdd, pMul, pDiv, roundF, overflowBound, pltB, defaultConst]
      try norm_num

/-- A `takeWhile (· ≠ 0)` over a zero-free token list is the list
itself. -/
theorem takeWhile_ne_zero_eq {l : List Int} (h : ∀ t ∈ l, t ≠ 0) :
    l.takeWhile (fun t => t ≠ 0) = l := by
  rw [List.takeWhile_eq_self_iff]
  intro t ht
  simpa using h t ht

/-- C3 (amended): an invalid operator application (dimension-rule
failure or division by zero) is skipped with its two operands popped and
nothing pushed; a row is scored only when its final stack depth is
exactly 1, so when the failing operation is the expression's final
operator acting on the only two stacked values, the row reports no
match; and on the host, a division by zero makes `evaluate_rpn_numeric`
(`_evaluate_rpn_cpu`) return NaN immediately (second conjunct; the
discarding of non-finite host values before matching is
`process_batch_match_postconditions`).  (The original claim — that EVERY
stack-valid row containing an invalid operation reports no match — is
refuted by `kernel_invalid_op_row_still_scored`: later underflow skips
can return the depth to 1.) -/
theorem kernel_failing_final_op_not_scored (consts : List Const) (tol : ℚ)
    (kpow : PVal → PVal → PVal) (front : List Int) (op : Int)
    (bv av : PVal) (bd ad : List ℤ) (fl : Bool)
    (h0 : ∀ t ∈ front, t ≠ 0) (hop : op < 0)
    (hstack : kernelRowEval consts kpow front = ([(bv, bd), (av, ad)], fl))
    (hfail : performDimOp op ad bd bv = none ∨ (op = -4 ∧ bv = .fin 0)) :
    kernelRowMatch consts tol kpow (front ++ [op]) = none ∧
    (∀ (consts2 : List Const) (pf : PVal → PVal → Option PVal)
      (ov : Int → Option PVal) (ts : List Int) (a : PVal) (rest : List PVal),
      evalRpnNumeric consts2 pf ov ((-4 : Int) :: ts) (.fin 0 :: a :: rest) = .nan) := by
  refine ⟨?_, fun consts2 pf ov ts a rest => rfl⟩
  have h0' : ∀ t ∈ front ++ [op], t ≠ 0 := by
    intro t ht
    rcases List.mem_append.mp ht with h | h
    · exact h0 t h
    · simp only [List.mem_singleton] at h
      omega
  have heval : kernelRowEval consts kpow (front ++ [op])
      = kernelStep consts kpow (kernelRowEval consts kpow front) op := by
    rw [kernelRowEval, kernelRowEval, takeWhile_ne_zero_eq h0', takeWhile_ne_zero_eq h0,
      List.foldl_append]
    rfl
  have hnotpos : ¬ 0 < op := by omega
  rw [kernelRowMatch, heval, hstack]
  rcases hfail with hf | hf
  · simp [kernelStep, hnotpos, hf]
  · rcases hf with ⟨rfl, rfl⟩
    simp [kernelStep, performDimOp]

/-- Witness for the amended C3: `[A, B, +]` with mismatched dimensions
on the final `+` reports no match. -/
theorem kernel_failing_final_op_not_scored_witness :
    kernelRowMatch [⟨"A", 1, [1, 0, 0, 0, 0, 0, 0]⟩, ⟨"B", 1, [0, 1, 0, 0, 0, 0, 0]⟩]
      (1 / 100) (fun _ _ => PVal.nan) ([1, 2] ++ [-1]) = none :=
  (kernel_failing_final_op_not_scored
    [⟨"A", 1, [1, 0, 0, 0, 0, 0, 0]⟩, ⟨"B", 1, [0, 1, 0, 0, 0, 0, 0]⟩] (1 / 100)
    (fun _ _ => PVal.nan) [1, 2] (-1)
    (.fin 1) (.fin 1) [0, 1, 0, 0, 0, 0, 0] [1, 0, 0, 0, 0, 0, 0] false
    (by decide) (by decide)
    (by norm_num [kernelRowEval, kernelStep, defaultConst])
    (Or.inl (by decide))).1

/-- C4 counterexample: in `(alpha / alpha) * X` the constant `alpha` is
a ghost (it cancels).  The source's sensitivity loop perturbs `alpha`
(it is not in the exempt list of main.py line 109) and therefore rejects
the candidate, while under the spec's claimed exempt set — which
includes `alpha` — the same candidate is accepted.  So `alpha` is
perturbed and does cause a ghost-variable rejection, refuting the
claim. -/
theorem alpha_perturbed_causes_ghost_rejection :
    (isValidDiscovery [⟨"alpha", 73 / 10000, dimZero⟩, ⟨"X", 2, dimZero⟩]
      (fun _ _ => none) (some false) [1, 1, -4, 2, -3] "T" ∅).1 = false ∧
    (isValidDiscoveryAlphaExempt [⟨"alpha", 73 / 10000, dimZero⟩, ⟨"X", 2, dimZero⟩]
      (fun _ _ => none) (some false) [1, 1, -4, 2, -3] "T" ∅).1 = true := by
  constructor <;>
    · simp [isValidDiscovery, isValidDiscoveryAlphaExempt, isValidDiscoveryGen,
        discoverySignatureGen, sensitivityLoop, symbolExempt, evalRpnNumeric,
        rpnUsedSymbols, targetBlacklist, sensitivityExempt, definitionGroups,
        defaultConst, Finset.insert_subset_iff, Finset.subset_iff,
        pAbs, pSub, pNeg, pAdd, pMul, pDiv, roundF, overflowBound, pltB]
      norm_num [abs]
      try simp

/-- The sensitivity loop skips exactly the token ids whose symbol is in
the exempt list: filtering them away beforehand does not change the
verdict. -/
theorem sensitivityLoop_filter (exempt : List String) (consts : List Const)
    (pf : PVal → PVal → Option PVal) (rpn : List Int) (base : PVal) :
    ∀ cids : List Int,
      sensitivityLoop exempt consts pf rpn base cids =
      sensitivityLoop exempt consts pf rpn base
        (cids.filter (fun cid => decide (¬ symbolExempt exempt consts cid))) := by
  intro cids
  induction cids with
  | nil => rfl
  | cons cid rest ih =>
    by_cases hx : symbolExempt exempt consts cid
    · rw [List.filter_cons, decide_eq_false (fun h => h hx), if_neg Bool.false_ne_true]
      simp only [sensitivityLoop]
      rw [if_pos hx]
      exact ih
    · rw [List.filter_cons, decide_eq_true hx, if_pos rfl]
      simp only [sensitivityLoop]
      rw [if_neg hx, if_neg hx, ih]

/-- C4 (amended): the sensitivity test perturbs exactly the distinct
constants of the expression whose symbols lie outside
`{one, two, half, three, pi, e_math, phi, sqrt_2, sqrt_3}`; `alpha` is
NOT in that exempt list (it appears only in the trivial-target
blacklist), so an `alpha` operand is perturbed like any physical
constant and can cause a ghost-variable rejection
(`alpha_perturbed_causes_ghost_rejection`). -/
theorem sensitivity_exempt_set_characterised (consts : List Const)
    (pf : PVal → PVal → Option PVal) (rpn : List Int) (base : PVal) :
    (∀ cids : List Int,
      sensitivityLoop sensitivityExempt consts pf rpn base cids =
      sensitivityLoop sensitivityExempt consts pf rpn base
        (cids.filter (fun cid => decide (¬ symbolExempt sensitivityExempt consts cid)))) ∧
    "alpha" ∉ sensitivityExempt ∧ "alpha" ∈ targetBlacklist :=
  ⟨sensitivityLoop_filter sensitivityExempt consts pf rpn base, by decide, by decide⟩

/-- C5: the code under-checks perturbed evaluations.  At this input the
constant `A` holds a finite double close to the overflow threshold;
multiplying it by 1.05 overflows to `+inf`, so the perturbed evaluation
is infinite — yet `is_valid_discovery` accepts the candidate, because
line 115 of main.py tests the perturbed result only for NaN/complex
(unlike line 104, which also tests the base value with `math.isinf`).
The spec requires non-finite perturbed evaluations to be rejected. -/
theorem infinite_perturbed_evaluation_accepted :
    evalRpnNumeric [⟨"A", 2 ^ 1024 - 2 ^ 1013, dimZero⟩] (fun _ _ => none)
      (fun t => if t = 1 then
        some (pMul (.fin (2 ^ 1024 - 2 ^ 1013)) (.fin (21 / 20))) else none)
      [1] [] = PVal.inf ∧
    (isValidDiscovery [⟨"A", 2 ^ 1024 - 2 ^ 1013, dimZero⟩] (fun _ _ => none)
      (some false) [1] "T" ∅).1 = true := by
  constructor <;>
    · simp [isValidDiscovery, isValidDiscoveryGen, discoverySignatureGen,
        sensitivityLoop, symbolExempt, evalRpnNumeric, rpnUsedSymbols,
        targetBlacklist, sensitivityExempt, definitionGroups, defaultConst,
        Finset.insert_subset_iff, Finset.subset_iff,
        pAbs, pSub, pNeg, pAdd, pMul, pDiv, roundF, overflowBound, pltB]
      norm_num [abs]
      try simp

/-- C6: whenever the full involved symbol set (expression symbols plus
target) has more than two members and is contained in one of the
definitional clusters, `is_valid_discovery` returns `False`. -/
theorem definitional_cluster_rejected (consts : List Const)
    (pf : PVal → PVal → Option PVal) (rc : Option Bool) (rpn : List Int)
    (target : String) (seen : Finset (Finset String)) (syms : Finset String)
    (hsyms : rpnUsedSymbols consts rpn 0 ∅ = some syms)
    (hcard : 2 < (insert target syms).card)
    (hgrp : ∃ g ∈ definitionGroups, insert target syms ⊆ g) :
    (isValidDiscovery consts pf rc rpn target seen).1 = false := by
  have hany : definitionGroups.any (fun g =>
      decide (2 < (insert target syms).card ∧ insert target syms ⊆ g)) = true := by
    obtain ⟨g, hg, hsub⟩ := hgrp
    exact List.any_eq_true.mpr ⟨g, hg, by simp [hcard, hsub]⟩
  have hsig : discoverySignatureGen sensitivityExempt consts pf rc rpn target = none := by
    rw [discoverySignatureGen]
    split_ifs with h1 h2 h3
    · rfl
    · rfl
    · rfl
    · rw [hsyms]
      simp only [hany, if_true]
  rw [isValidDiscovery, isValidDiscoveryGen, hsig]

/-- Witness for C6: an expression over `{h, e_charge, two, pi}` matching
target `G_0` is rejected — the five involved symbols are contained in
the quantum-electrical definitional cluster. -/
theorem definitional_cluster_rejected_witness :
    (isValidDiscovery
      [⟨"h", 1, dimZero⟩, ⟨"e_charge", 1, dimZero⟩, ⟨"two", 2, dimZero⟩, ⟨"pi", 3, dimZero⟩]
      (fun _ _ => none) (some false) [1, 2, -4, 3, -4, 4, -3] "G_0" ∅).1 = false :=
  definitional_cluster_rejected
    [⟨"h", 1, dimZero⟩, ⟨"e_charge", 1, dimZero⟩, ⟨"two", 2, dimZero⟩, ⟨"pi", 3, dimZero⟩]
    (fun _ _ => none) (some false) [1, 2, -4, 3, -4, 4, -3] "G_0" ∅
    (insert "pi" (insert "two" (insert "e_charge" (insert "h" ∅)))) rfl
    (by decide) (by decide)

/-- C7: if `is_valid_discovery` accepts a candidate, then the identical
call replayed against the `seen_clusters` state left behind by the first
call is rejected — the first call records the cluster signature (the
unordered set of involved symbols) and the second call finds it. -/
theorem valid_discovery_not_accepted_twice (consts : List Const)
    (pf : PVal → PVal → Option PVal) (rc : Option Bool) (rpn : List Int)
    (target : String) (seen : Finset (Finset String))
    (h : (isValidDiscovery consts pf rc rpn target seen).1 = true) :
    (isValidDiscovery consts pf rc rpn target
      (isValidDiscovery consts pf rc rpn target seen).2).1 = false := by
  cases hsig : discoverySignatureGen sensitivityExempt consts pf rc rpn target with
  | none =>
    rw [isValidDiscovery, isValidDiscoveryGen, hsig] at h
    exact absurd h (by simp)
  | some sig =>
    replace h : (if sig ∈ seen then ((false, seen) : Bool × Finset (Finset String))
        else (true, insert sig seen)).1 = true := by
      rw [isValidDiscovery, isValidDiscoveryGen, hsig] at h
      exact h
    by_cases hmem : sig ∈ seen
    · rw [if_pos hmem] at h
      exact absurd h (by simp)
    · have h2 : (isValidDiscovery consts pf rc rpn target seen).2
          = insert sig seen := by
        rw [isValidDiscovery, isValidDiscoveryGen, hsig]
        show (if sig ∈ seen then ((false, seen) : Bool × Finset (Finset String))
          else (true, insert sig seen)).2 = insert sig seen
        rw [if_neg hmem]
      rw [h2, isValidDiscovery, isValidDiscoveryGen, hsig]
      show (if sig ∈ insert sig seen
          then ((false, insert sig seen) : Bool × Finset (Finset String))
          else (true, insert sig (insert sig seen))).1 = false
      rw [if_pos (Finset.mem_insert_self sig seen)]

/-- Witness for C7: a concrete accepted candidate (`A * B` matching
`T`), replayed against the updated `seen_clusters`, is rejected. -/
theorem valid_discovery_not_accepted_twice_witness :
    (isValidDiscovery [⟨"A", 2, dimZero⟩, ⟨"B", 3, dimZero⟩] (fun _ _ => none)
      (some false) [1, 2, -3] "T"
      (isValidDiscovery [⟨"A", 2, dimZero⟩, ⟨"B", 3, dimZero⟩] (fun _ _ => none)
        (some false) [1, 2, -3] "T" ∅).2).1 = false :=
  valid_discovery_not_accepted_twice [⟨"A", 2, dimZero⟩, ⟨"B", 3, dimZero⟩]
    (fun _ _ => none) (some false) [1, 2, -3] "T" ∅ (by
      simp [isValidDiscovery, isValidDiscoveryGen, discoverySignatureGen,
        sensitivityLoop, symbolExempt, evalRpnNumeric, rpnUsedSymbols,
        targetBlacklist, sensitivityExempt, definitionGroups, defaultConst,
        Finset.insert_subset_iff, Finset.subset_iff,
        pAbs, pSub, pNeg, pAdd, pMul, pDiv, roundF, overflowBound, pltB]
      norm_num [abs]
      try simp)

/-- Splitting a space-free word returns just that word. -/
theorem splitSp_word : ∀ {w : List Char}, ' ' ∉ w → splitSp w = [w] := by
  intro w
  induction w with
  | nil => intro _; rfl
  | cons c rest ih =>
    intro h
    have hc : ¬ (c = ' ') := fun hc => h (by rw [hc]; exact List.mem_cons_self _ _)
    rw [splitSp, if_neg hc, ih (fun hm => h (List.mem_cons_of_mem c hm))]

/-- Splitting a space-free word followed by a space and a tail splits
off exactly that word. -/
theorem splitSp_append : ∀ {w t : List Char}, ' ' ∉ w →
    splitSp (w ++ ' ' :: t) = w :: splitSp t := by
  intro w t
  induction w with
  | nil =>
    intro _
    simp [splitSp]
  | cons c rest ih =>
    intro h
    have hc : ¬ (c = ' ') := fun hc => h (by rw [hc]; exact List.mem_cons_self _ _)
    rw [List.cons_append, splitSp, if_neg hc, ih (fun hm => h (List.mem_cons_of_mem c hm))]

/-- `str.split(' ')` is a left inverse of `' '.join` on nonempty lists
of space-free words. -/
theorem splitSp_joinWords : ∀ ws : List (List Char), ws ≠ [] →
    (∀ w ∈ ws, ' ' ∉ w) → splitSp (joinWords ws) = ws := by
  intro ws
  induction ws with
  | nil => intro h _; exact absurd rfl h
  | cons w ws ih =>
    intro _ hw
    cases ws with
    | nil => exact splitSp_word (hw w (List.mem_cons_self _ _))
    | cons w2 ws2 =>
      rw [joinWords, splitSp_append (hw w (List.mem_cons_self _ _)),
        ih (List.cons_ne_nil _ _) (fun x hx => hw x (List.mem_cons_of_mem _ hx))]
      simp

/-- With pairwise-distinct registry symbols, the consumer's last-wins
symbol table maps the symbol of the constant at index `i` to token id
`i + 1`. -/
theorem symLookup_getElem (consts : List Const)
    (hnodup : (consts.map Const.symbol).Nodup) (i : Nat) (hi : i < consts.length) :
    symLookup consts consts[i].symbol = some ((i : Int) + 1) := by
  rw [symLookup]
  cases hf : (List.range consts.length).reverse.find?
      (fun j => decide ((consts.getD j defaultConst).symbol = consts[i].symbol)) with
  | none =>
    exfalso
    have hnone := List.find?_eq_none.mp hf i (by simp [hi])
    rw [List.getD_eq_getElem _ _ hi] at hnone
    simp at hnone
  | some j =>
    have hj1 := List.find?_some hf
    have hj2 := List.mem_of_find?_eq_some hf
    simp only [List.mem_reverse, List.mem_range] at hj2
    rw [List.getD_eq_getElem _ _ hj2] at hj1
    simp only [decide_eq_true_eq] at hj1
    have hij : j = i := by
      have hj3 : j < (List.map Const.symbol consts).length := by simpa using hj2
      have hi3 : i < (List.map Const.symbol consts).length := by simpa using hi
      have hmap : (List.map Const.symbol consts).get ⟨j, hj3⟩
          = (List.map Const.symbol consts).get ⟨i, hi3⟩ := by
        simp only [List.get_eq_getElem, List.getElem_map]
        exact hj1
      exact congrArg Fin.val ((List.Nodup.get_inj_iff hnodup).mp hmap)
    subst hij
    simp

/-- Re-parsing the rendered word of a valid token recovers the token:
operator glyphs map back through the operator table, and constant
symbols — which are none of the five glyphs — map back through the
symbol table. -/
theorem parseWord_tokenWord (consts : List Const)
    (hnodup : (consts.map Const.symbol).Nodup)
    (hsyms : ∀ c ∈ consts, c.symbol ≠ "" ∧ ' ' ∉ c.symbol.data ∧
      c.symbol ∉ (["+", "-", "*", "/", "^"] : List String))
    (t : Int)
    (ht : (0 < t ∧ t.toNat ≤ consts.length) ∨ t ∈ ([-1, -2, -3, -4, -5] : List Int)) :
    parseWord consts (tokenWord consts t) = some t := by
  rcases ht with ⟨hpos, hle⟩ | hop
  · have hidx : (t - 1).toNat < consts.length := by omega
    rw [tokenWord, if_pos hpos, List.getD_eq_getElem _ _ hidx]
    have hmem : consts[(t - 1).toNat] ∈ consts := List.getElem_mem _
    obtain ⟨-, -, hglyph⟩ := hsyms _ hmem
    simp only [List.mem_cons, List.mem_singleton, not_or] at hglyph
    obtain ⟨h1, h2, h3, h4, h5, -⟩ := hglyph
    rw [parseWord, if_neg h1, if_neg h2, if_neg h3, if_neg h4, if_neg h5,
      symLookup_getElem consts hnodup _ hidx]
    congr 1
    omega
  · simp only [List.mem_cons, List.not_mem_nil, or_false] at hop
    rcases hop with rfl | rfl | rfl | rfl | rfl <;> rfl

/-- C8: for every expression over the registry (tokens are in-range
constant ids or the five operator codes) and a registry whose symbols
are pairwise distinct, nonempty, space-free and distinct from the
operator glyphs, re-parsing the rendered match string recovers exactly
the original token sequence — and hence the original constant-symbol
set used for the cluster signature. -/
theorem render_parse_round_trip (consts : List Const) (rpn : List Int)
    (hnodup : (consts.map Const.symbol).Nodup)
    (hsyms : ∀ c ∈ consts, c.symbol ≠ "" ∧ ' ' ∉ c.symbol.data ∧
      c.symbol ∉ (["+", "-", "*", "/", "^"] : List String))
    (htok : ∀ t ∈ rpn, (0 < t ∧ t.toNat ≤ consts.length) ∨
      t ∈ ([-1, -2, -3, -4, -5] : List Int))
    (hne : rpn ≠ []) :
    parseRpn consts (renderRpn consts rpn) = some rpn := by
  rw [renderRpn, parseRpn]
  have hwords : ∀ w ∈ (rpn.map (tokenWord consts)).map String.data, ' ' ∉ w := by
    intro w hw
    simp only [List.map_map, List.mem_map, Function.comp] at hw
    obtain ⟨t, hmem, rfl⟩ := hw
    rcases htok t hmem with ⟨hpos, hle⟩ | hop
    · have hidx : (t - 1).toNat < consts.length := by omega
      rw [tokenWord, if_pos hpos, List.getD_eq_getElem _ _ hidx]
      exact (hsyms _ (List.getElem_mem _)).2.1
    · simp only [List.mem_cons, List.not_mem_nil, or_false] at hop
      rcases hop with rfl | rfl | rfl | rfl | rfl <;>
        · rw [tokenWord, if_neg (by norm_num)]
          decide
  rw [splitSp_joinWords _ (by simpa using hne) hwords]
  clear hwords hne
  induction rpn with
  | nil => rfl
  | cons t ts ih =>
    have hword : parseWord consts (tokenWord consts t) = some t :=
      parseWord_tokenWord consts hnodup hsyms t (htok t (List.mem_cons_self _ _))
    simp only [List.map_cons, List.mapM_cons]
    rw [show String.mk (tokenWord consts t).data = tokenWord consts t from rfl, hword,
      ih (fun x hx => htok x (List.mem_cons_of_mem _ hx))]
    rfl

/-- Witness for C8: a registry with symbols `h` and `c` and the
expression `h / c` round-trips through `"h c /"`. -/
theorem render_parse_round_trip_witness :
    parseRpn [⟨"h", 1, dimZero⟩, ⟨"c", 2, dimZero⟩]
      (renderRpn [⟨"h", 1, dimZero⟩, ⟨"c", 2, dimZero⟩] [1, 2, -4]) = some [1, 2, -4] :=
  render_parse_round_trip [⟨"h", 1, dimZero⟩, ⟨"c", 2, dimZero⟩] [1, 2, -4]
    (by decide) (by decide) (by decide) (by decide)


/-- Updating a segment leaves every other segment's content unchanged. -/
theorem lookupFile_setFile_ne (i j : Nat) (hne : j ≠ i) (c : List String) :
    ∀ fs : List (Nat × List String), lookupFile (setFile fs i c) j = lookupFile fs j := by
  intro fs
  induction fs with
  | nil => simp [setFile, lookupFile, Ne.symm hne]
  | cons p rest ih =>
    obtain ⟨k, c0⟩ := p
    by_cases hk : k = i
    · subst hk
      rw [setFile, if_pos rfl, lookupFile, lookupFile, if_neg (fun h => hne h.symm),
        if_neg (fun h => hne h.symm)]
    · rw [setFile, if_neg hk, lookupFile, lookupFile]
      by_cases hkj : k = j
      · rw [if_pos hkj, if_pos hkj]
      · rw [if_neg hkj, if_neg hkj, ih]

/-- Updating a segment makes its content the written one. -/
theorem lookupFile_setFile_self (i : Nat) (c : List String) :
    ∀ fs : List (Nat × List String), lookupFile (setFile fs i c) i = some c := by
  intro fs
  induction fs with
  | nil => simp [setFile, lookupFile]
  | cons p rest ih =>
    obtain ⟨k, c0⟩ := p
    by_cases hk : k = i
    · rw [setFile, if_pos hk, lookupFile, if_pos hk]
    · rw [setFile, if_neg hk, lookupFile, if_neg hk, ih]

/-- One record write preserves the invariant "every existing segment
file begins with the header line". -/
theorem writeRecord_header_invariant (st : LogState) (line : String)
    (hinv : ∀ seg content, lookupFile st.files seg = some content →
      content.head? = some logHeader) :
    ∀ seg content, lookupFile (writeRecord st line).files seg = some content →
      content.head? = some logHeader := by
  intro seg content h
  rw [writeRecord] at h
  cases hf : lookupFile st.files (st.total / 500 + 1) with
  | some c0 =>
    rw [hf] at h
    simp only at h
    by_cases hseg : seg = st.total / 500 + 1
    · subst hseg
      rw [lookupFile_setFile_self] at h
      injection h with h
      subst h
      have hc0 := hinv _ _ hf
      cases c0 with
      | nil => exact absurd hc0 (by simp)
      | cons x xs => simpa using hc0
    · rw [lookupFile_setFile_ne _ _ hseg] at h
      exact hinv _ _ h
  | none =>
    rw [hf] at h
    simp only at h
    by_cases hseg : seg = st.total / 500 + 1
    · subst hseg
      rw [lookupFile_setFile_self] at h
      injection h with h
      subst h
      rfl
    · rw [lookupFile_setFile_ne _ _ hseg] at h
      exact hinv _ _ h

/-- C9 (amended): every log segment file that exists after any sequence
of record writes from a fresh run begins with the header line — the
header is written to EVERY newly created segment (`mode == 'w'` holds
whenever the file does not exist yet), not only to the first one. -/
theorem log_segments_all_start_with_header (lines : List String) (seg : Nat)
    (content : List String)
    (h : lookupFile (writeRecords lines emptyLogState).files seg = some content) :
    content.head? = some logHeader := by
  suffices hgen : ∀ st : LogState,
      (∀ s c, lookupFile st.files s = some c → c.head? = some logHeader) →
      ∀ s c, lookupFile (writeRecords lines st).files s = some c →
        c.head? = some logHeader by
    exact hgen emptyLogState (by intro s c hc; simp [emptyLogState, lookupFile] at hc)
      seg content h
  clear h
  induction lines with
  | nil => intro st hinv s c h; exact hinv s c h
  | cons line rest ih =>
    intro st hinv s c h
    exact ih (writeRecord st line) (writeRecord_header_invariant st line hinv) s c h

/-- Witness for the amended C9: one record creates segment 1 with the
header first. -/
theorem log_segments_all_start_with_header_witness :
    ([logHeader, "L"] : List String).head? = some logHeader :=
  log_segments_all_start_with_header ["L"] 1 [logHeader, "L"] (by decide)

set_option maxRecDepth 100000 in
/-- C9 counterexample: writing 501 records from a fresh run rolls over
to segment 2 after 500 records, and segment 2 ALSO begins with the
header line — the source writes the header whenever a segment file is
first created (`mode == 'w'`), not only for the first segment.  (The
last conjunct records that the header line is distinct from the
discovery lines, so a segment starting with it does not "begin directly
with discovery lines".) -/
theorem second_log_segment_also_has_header :
    lookupFile (writeRecords (List.replicate 501 "Match (Standard)") emptyLogState).files 2
      = some [logHeader, "Match (Standard)"] ∧
    (lookupFile (writeRecords (List.replicate 501 "Match (Standard)") emptyLogState).files 1).map
      List.head? = some (some logHeader) ∧
    logHeader ≠ "Match (Standard)" := by
  refine ⟨?_, ?_, by decide⟩ <;> decide


/-- Decomposition of a successful `_is_interesting` verdict. -/
theorem isInteresting_true_iff (rpnInt : List Int) (targetIdx : Nat) (deviation : PVal) :
    isInteresting rpnInt targetIdx deviation = true ↔
      (targetIdx : Int) ∉ usedConstIdx rpnInt ∧
      pltB deviation (.fin (1 / 10 ^ 15)) = false ∧
      2 ≤ (usedConstIdx rpnInt).card := by
  rw [isInteresting]
  split_ifs with h1 h2 h3
  · simp only [Bool.false_eq_true, false_iff]
    rintro ⟨hn, -, -⟩
    exact hn h1
  · simp only [Bool.false_eq_true, false_iff]
    rintro ⟨-, hd, -⟩
    rw [h2] at hd
    exact absurd hd (by simp)
  · simp only [Bool.false_eq_true, false_iff]
    rintro ⟨-, -, hc⟩
    omega
  · simp only [true_iff]
    refine ⟨h1, ?_, by omega⟩
    rcases Bool.eq_false_or_eq_true (pltB deviation (.fin (1 / 10 ^ 15))) with h | h
    · exact absurd h h2
    · exact h

/-- C10 (amended): every match emitted by `process_batch` comes from a
raw pair with an in-range equation index and an in-range, non-zero
target, the host-recomputed value is finite (non-NaN, non-infinite),
the target's index does not occur among the expression's constant
tokens, the expression uses at least two distinct constants, and the
recorded deviation is the host-recomputed relative deviation and is NOT
below `1e-15`.  (The deviation itself need not be finite: the original
claim's finiteness conjunct fails when `value − target` overflows the
double range, see `emitted_match_with_infinite_deviation`.) -/
theorem process_batch_match_postconditions (consts : List Const)
    (pf : PVal → PVal → Option PVal) (equations : List (List Int)) :
    ∀ (raw : List (Nat × Nat)) (ms : List PBMatch),
      processRaw consts pf equations raw = some ms →
      ∀ m ∈ ms, ∃ eqIdx tIdx tc,
        (eqIdx, tIdx) ∈ raw ∧ eqIdx < equations.length ∧
        consts[tIdx]? = some tc ∧ m.target = tc.symbol ∧ tc.value ≠ 0 ∧
        hostValue consts pf equations eqIdx ≠ .nan ∧
        hostValue consts pf equations eqIdx ≠ .inf ∧
        hostValue consts pf equations eqIdx ≠ .ninf ∧
        (tIdx : Int) ∉ usedConstIdx (strippedRpn equations eqIdx) ∧
        2 ≤ (usedConstIdx (strippedRpn equations eqIdx)).card ∧
        m.deviation = hostDeviation (hostValue consts pf equations eqIdx) tc.value ∧
        pltB m.deviation (.fin (1 / 10 ^ 15)) = false := by
  intro raw
  induction raw with
  | nil =>
    intro ms h m hm
    injection h with h
    subst h
    exact absurd hm (List.not_mem_nil m)
  | cons p rest ih =>
    obtain ⟨eqIdx, tIdx⟩ := p
    intro ms h m hm
    rw [processRaw] at h
    split_ifs at h with hlen hval
    · obtain ⟨e, t, tc, hmem, hrest⟩ := ih ms h m hm
      exact ⟨e, t, tc, List.mem_cons_of_mem _ hmem, hrest⟩
    · obtain ⟨e, t, tc, hmem, hrest⟩ := ih ms h m hm
      exact ⟨e, t, tc, List.mem_cons_of_mem _ hmem, hrest⟩
    · cases htc : consts[tIdx]? with
      | none => rw [htc] at h; exact absurd h (by simp)
      | some tc =>
        rw [htc] at h
        simp only at h
        by_cases hzero : tc.value = 0
        · rw [if_pos hzero] at h
          exact absurd h (by simp)
        · rw [if_neg hzero] at h
          by_cases hint : isInteresting (strippedRpn equations eqIdx) tIdx
              (hostDeviation (hostValue consts pf equations eqIdx) tc.value) = true
          · rw [if_pos hint] at h
            cases hrest : processRaw consts pf equations rest with
            | none => rw [hrest] at h; exact absurd h (by simp)
            | some ms0 =>
              rw [hrest] at h
              simp only [Option.map_some'] at h
              injection h with h
              subst h
              rcases List.mem_cons.mp hm with rfl | hm0
              · push_neg at hval
                obtain ⟨hn1, hn2, hn3⟩ := hval
                obtain ⟨hni, hdev, hcard⟩ := (isInteresting_true_iff _ _ _).mp hint
                exact ⟨eqIdx, tIdx, tc, List.mem_cons_self _ _, by omega, htc, rfl,
                  hzero, hn1, hn2, hn3, hni, hcard, rfl, hdev⟩
              · obtain ⟨e, t, tc2, hmem, hrest2⟩ := ih ms0 hrest m hm0
                exact ⟨e, t, tc2, List.mem_cons_of_mem _ hmem, hrest2⟩
          · rw [if_neg hint] at h
            obtain ⟨e, t, tc2, hmem, hrest2⟩ := ih ms h m hm
            exact ⟨e, t, tc2, List.mem_cons_of_mem _ hmem, hrest2⟩

/-- Witness for the amended C10: `A * B` (value 6) matched against
target `T` (value 7, deviation 1/7) is emitted and satisfies every
postcondition. -/
theorem process_batch_match_postconditions_witness :
    ∃ eqIdx tIdx tc,
      (eqIdx, tIdx) ∈ ([(0, 2)] : List (Nat × Nat)) ∧
      eqIdx < ([[1, 2, -3]] : List (List Int)).length ∧
      ([⟨"A", 2, dimZero⟩, ⟨"B", 3, dimZero⟩, ⟨"T", 7, dimZero⟩] : List Const)[tIdx]?
        = some tc ∧
      (⟨renderRpn [⟨"A", 2, dimZero⟩, ⟨"B", 3, dimZero⟩, ⟨"T", 7, dimZero⟩] [1, 2, -3],
        "T", hostDeviation (PVal.fin 6) 7, 3⟩ : PBMatch).target = tc.symbol ∧
      tc.value ≠ 0 ∧
      hostValue [⟨"A", 2, dimZero⟩, ⟨"B", 3, dimZero⟩, ⟨"T", 7, dimZero⟩] (fun _ _ => none)
        [[1, 2, -3]] eqIdx ≠ .nan ∧
      hostValue [⟨"A", 2, dimZero⟩, ⟨"B", 3, dimZero⟩, ⟨"T", 7, dimZero⟩] (fun _ _ => none)
        [[1, 2, -3]] eqIdx ≠ .inf ∧
      hostValue [⟨"A", 2, dimZero⟩, ⟨"B", 3, dimZero⟩, ⟨"T", 7, dimZero⟩] (fun _ _ => none)
        [[1, 2, -3]] eqIdx ≠ .ninf ∧
      (tIdx : Int) ∉ usedConstIdx (strippedRpn [[1, 2, -3]] eqIdx) ∧
      2 ≤ (usedConstIdx (strippedRpn [[1, 2, -3]] eqIdx)).card ∧
      (⟨renderRpn [⟨"A", 2, dimZero⟩, ⟨"B", 3, dimZero⟩, ⟨"T", 7, dimZero⟩] [1, 2, -3],
        "T", hostDeviation (PVal.fin 6) 7, 3⟩ : PBMatch).deviation
        = hostDeviation (hostValue [⟨"A", 2, dimZero⟩, ⟨"B", 3, dimZero⟩, ⟨"T", 7, dimZero⟩]
            (fun _ _ => none) [[1, 2, -3]] eqIdx) tc.value ∧
      pltB (⟨renderRpn [⟨"A", 2, dimZero⟩, ⟨"B", 3, dimZero⟩, ⟨"T", 7, dimZero⟩] [1, 2, -3],
        "T", hostDeviation (PVal.fin 6) 7, 3⟩ : PBMatch).deviation
        (.fin (1 / 10 ^ 15)) = false :=
  process_batch_match_postconditions
    [⟨"A", 2, dimZero⟩, ⟨"B", 3, dimZero⟩, ⟨"T", 7, dimZero⟩] (fun _ _ => none)
    [[1, 2, -3]] [(0, 2)]
    [⟨renderRpn [⟨"A", 2, dimZero⟩, ⟨"B", 3, dimZero⟩, ⟨"T", 7, dimZero⟩] [1, 2, -3],
      "T", hostDeviation (PVal.fin 6) 7, 3⟩]
    (by
      simp [processRaw, hostValue, strippedRpn, isInteresting, usedConstIdx,
        hostDeviation, evalRpnNumeric, pAbs, pSub, pNeg, pAdd, pMul, pDiv, pltB,
        roundF, overflowBound]
      norm_num [abs]
      try simp)
    _ (List.mem_cons_self _ _)

/-- C10 counterexample: the claim's "deviation is finite" conjunct
fails.  The kernel reports row `[A, B, +, C, *]` (the mismatched `+` and
the underflowing `*` are skipped, leaving `C`'s value `-2^1023`) against
target `D` (index 2, also `-2^1023`, not among the row's tokens).  The
host recomputes the value as `(A+B)*C = 2^1023` — finite, so it survives
the NaN/inf check — but the deviation `|2^1023 − (−2^1023)| / 2^1023`
overflows to `+inf` in double arithmetic, `inf < 1e-15` is false, and
the match is emitted with an INFINITE deviation. -/
theorem emitted_match_with_infinite_deviation :
    kernelRowMatch
      [⟨"A", -3, [1, 0, 0, 0, 0, 0, 0]⟩, ⟨"B", 2, [0, 1, 0, 0, 0, 0, 0]⟩,
        ⟨"D", -(2 ^ 1023), dimZero⟩, ⟨"C", -(2 ^ 1023), dimZero⟩]
      (1 / 100) (fun _ _ => PVal.nan) [1, 2, -1, 4, -3] = some 2 ∧
    processRaw
      [⟨"A", -3, [1, 0, 0, 0, 0, 0, 0]⟩, ⟨"B", 2, [0, 1, 0, 0, 0, 0, 0]⟩,
        ⟨"D", -(2 ^ 1023), dimZero⟩, ⟨"C", -(2 ^ 1023), dimZero⟩]
      (fun _ _ => none) [[1, 2, -1, 4, -3]] [(0, 2)]
      = some [⟨renderRpn
          [⟨"A", -3, [1, 0, 0, 0, 0, 0, 0]⟩, ⟨"B", 2, [0, 1, 0, 0, 0, 0, 0]⟩,
            ⟨"D", -(2 ^ 1023), dimZero⟩, ⟨"C", -(2 ^ 1023), dimZero⟩]
          [1, 2, -1, 4, -3], "D", PVal.inf, 5⟩] := by
  constructor <;>
    · simp [kernelRowMatch, kernelRowEval, kernelStep, scanTargets, relDev,
        performDimOp, kernelOpVal, dimZero, defaultConst,
        processRaw, hostValue, strippedRpn, isInteresting, usedConstIdx,
        hostDeviation, evalRpnNumeric,
        pAbs, pSub, pNeg, pAdd, pMul, pDiv, roundF, overflowBound, pltB]
      try norm_num [abs]
      try simp

end GeomQuant
